import Mathlib

/-!
Verification of the Mandelbrot-Explorer numerical core.

The Rust source is shallowly embedded: f64/f32 arithmetic is modelled by
exact rational arithmetic over ℚ, i32 pixel arithmetic by ℤ (all dividends
in the source are nonnegative, so Euclidean and truncated division agree),
u16 iteration counts by ℕ, and the while loop of the escape-time evaluator
by structural recursion on its remaining iteration budget.
-/

namespace Mandelbrot

/-- Width of the window (src/main.rs, WINDOW_WIDTH, i32). -/
def WINDOW_WIDTH : ℤ := 1280

/-- Height of the window (src/main.rs, WINDOW_HEIGHT, i32). -/
def WINDOW_HEIGHT : ℤ := 720

/-- The maximum amount of iterations for the divergence check
(src/math.rs, MAX_ITER, u16). -/
def MAX_ITER : ℕ := 100

/-- Complex number in double precision (src/math.rs, ComplexNumber),
modelled with exact rationals. -/
structure ComplexNumber where
  real : ℚ
  imag : ℚ
deriving DecidableEq

/-- Checks if the number is already too large to continue iteration
(src/math.rs, ComplexNumber::is_too_large): real^2 + imag^2 > 2.0 * 2.0. -/
def ComplexNumber.is_too_large (z : ComplexNumber) : Prop :=
  z.real * z.real + z.imag * z.imag > 2 * 2

instance (z : ComplexNumber) : Decidable z.is_too_large := by
  unfold ComplexNumber.is_too_large; infer_instance

/-- One Mandelbrot step (src/math.rs, ComplexNumber::next_step):
simultaneous assignment (r, i) := (r*r - i*i + o.r, 2*r*i + o.i). -/
def ComplexNumber.next_step (z offset : ComplexNumber) : ComplexNumber :=
  ⟨z.real * z.real - z.imag * z.imag + offset.real,
   2 * z.real * z.imag + offset.imag⟩

/-- The while loop of get_iteration_till_termination, as recursion on the
remaining budget MAX_ITER - iter: it returns the number of steps executed
starting from scan before the budget runs out or scan is too large. -/
def iterationLoop (c : ComplexNumber) : ComplexNumber → ℕ → ℕ
  | _, 0 => 0
  | scan, fuel + 1 =>
      if scan.is_too_large then 0
      else iterationLoop c (scan.next_step c) fuel + 1

/-- The amount of iterations needed till divergence (src/math.rs,
ComplexNumber::get_iteration_till_termination): z starts at default (0,0)
and the loop runs while iter < MAX_ITER and not is_too_large. -/
def ComplexNumber.get_iteration_till_termination (c : ComplexNumber) : ℕ :=
  iterationLoop c ⟨0, 0⟩ MAX_ITER

/-- Generates the iteration field for a center and a radius
(src/math.rs, get_iteration_field): row-major map over all pixel indices,
with i32 pixel arithmetic and step = extension / (WINDOW_HEIGHT * 0.5). -/
def get_iteration_field (center : ComplexNumber) (extension : ℚ) : List ℕ :=
  let window_height : ℚ := (WINDOW_HEIGHT : ℚ)
  let step_increment : ℚ := extension / (window_height * (1/2))
  (List.range (WINDOW_WIDTH * WINDOW_HEIGHT).toNat).map (fun (x : ℕ) =>
    let y_pos : ℤ := (x : ℤ) / WINDOW_WIDTH - WINDOW_HEIGHT / 2
    let x_pos : ℤ := (x : ℤ) % WINDOW_WIDTH - WINDOW_WIDTH / 2
    let scan : ComplexNumber :=
      ⟨(x_pos : ℚ) * step_increment + center.real,
       (y_pos : ℚ) * step_increment + center.imag⟩
    scan.get_iteration_till_termination)

/-- The loop never performs more steps than its remaining budget. -/
theorem iterationLoop_le (c : ComplexNumber) :
    ∀ (scan : ComplexNumber) (fuel : ℕ), iterationLoop c scan fuel ≤ fuel := by
  intro scan fuel
  induction fuel generalizing scan with
  | zero => simp [iterationLoop]
  | succ n ih =>
      simp only [iterationLoop]
      split
      · omega
      · have := ih (scan.next_step c)
        omega

/-- Stepping from the origin lands exactly on the offset c. -/
theorem next_step_zero (c : ComplexNumber) :
    ComplexNumber.next_step ⟨0, 0⟩ c = c := by
  simp [ComplexNumber.next_step]

/-- A coordinate whose squared magnitude exceeds 4 escapes after exactly
one iteration. -/
theorem iteration_of_large (c : ComplexNumber)
    (h : c.real * c.real + c.imag * c.imag > 4) :
    c.get_iteration_till_termination = 1 := by
  have h0 : ¬ (ComplexNumber.mk 0 0).is_too_large := by
    simp [ComplexNumber.is_too_large]
  have hc : c.is_too_large := by
    unfold ComplexNumber.is_too_large; linarith
  simp [ComplexNumber.get_iteration_till_termination, MAX_ITER,
    iterationLoop, h0, next_step_zero, hc]

/-- Iterating from the origin with offset zero stays at the origin forever,
so the loop exhausts the full budget. -/
theorem iterationLoop_zero_offset (fuel : ℕ) :
    iterationLoop ⟨0, 0⟩ ⟨0, 0⟩ fuel = fuel := by
  induction fuel with
  | zero => simp [iterationLoop]
  | succ n ih =>
      have h0 : ¬ (ComplexNumber.mk 0 0).is_too_large := by
        simp [ComplexNumber.is_too_large]
      rw [iterationLoop, if_neg h0, next_step_zero, ih]

/-- C1: for every complex coordinate with squared magnitude above 4
(equivalently absolute value above 2) the escape-time evaluator stops
strictly below MAX_ITER, and at the origin it returns exactly MAX_ITER. -/
theorem claim_C1_escape_time :
    (∀ c : ComplexNumber, c.real * c.real + c.imag * c.imag > 4 →
      c.get_iteration_till_termination < MAX_ITER) ∧
    (ComplexNumber.mk 0 0).get_iteration_till_termination = MAX_ITER := by
  constructor
  · intro c h
    rw [iteration_of_large c h]
    simp [MAX_ITER]
  · exact iterationLoop_zero_offset MAX_ITER

/-- C1 witness: the coordinate 3 + 0i has squared magnitude 9 > 4 and
indeed terminates strictly below MAX_ITER. -/
theorem claim_C1_escape_time_witness :
    (ComplexNumber.mk 3 0).get_iteration_till_termination < MAX_ITER :=
  claim_C1_escape_time.1 ⟨3, 0⟩ (by norm_num)

/-- Reading any position of a bounded map over a range through getD stays
below the bound. -/
theorem getD_map_range_le (f : ℕ → ℕ) (B n i : ℕ) (hf : ∀ x, f x ≤ B) :
    ((List.range n).map f).getD i 0 ≤ B := by
  by_cases h : i < n
  · rw [List.getD_eq_getElem?_getD, List.getElem?_map, List.getElem?_range h]
    simpa using hf i
  · rw [List.getD_eq_getElem?_getD, List.getElem?_eq_none]
    · exact Nat.zero_le B
    · simpa using h

/-- C2: for every viewport the generated field has length exactly
WINDOW_WIDTH * WINDOW_HEIGHT = 1280 * 720, and every entry (read through
getD, with out-of-range reads defaulting to 0) is at most MAX_ITER; the
per-pixel loop performs at most MAX_ITER steps by construction. -/
theorem claim_C2_field_shape (center : ComplexNumber) (extension : ℚ) :
    (get_iteration_field center extension).length = 1280 * 720 ∧
    ∀ i : ℕ, (get_iteration_field center extension).getD i 0 ≤ MAX_ITER := by
  constructor
  · rw [get_iteration_field]
    rw [List.length_map, List.length_range]
    decide
  · intro i
    rw [get_iteration_field]
    exact getD_map_range_le _ _ _ i (fun x => iterationLoop_le _ _ MAX_ITER)

/-- The half-width of the variance window (src/focus_system.rs, WINDOW_STEP). -/
def WINDOW_STEP : ℤ := 5

/-- The amount of samples in the window (src/focus_system.rs, SAMPLE_SIZE). -/
def SAMPLE_SIZE : ℚ := (((2 * WINDOW_STEP + 1) * (2 * WINDOW_STEP + 1) : ℤ) : ℚ)

/-- The maximum squared distance of a pixel from the center
(src/focus_system.rs, MAX_DIST_SQ). -/
def MAX_DIST_SQ : ℚ := (((WINDOW_WIDTH / 2) ^ 2 + (WINDOW_HEIGHT / 2) ^ 2 : ℤ) : ℚ)

/-- The inclusive offset range -WINDOW_STEP..=WINDOW_STEP. -/
def windowRange : List ℤ :=
  (List.range (2 * WINDOW_STEP + 1).toNat).map (fun (i : ℕ) => (i : ℤ) - WINDOW_STEP)

/-- The border-stripe test of the scorer (src/focus_system.rs, lines 36-40):
a linear pixel index whose x or y coordinate lies within WINDOW_STEP of an
image edge. -/
def isBorderIdx (idx : ℕ) : Prop :=
  (idx : ℤ) % WINDOW_WIDTH < WINDOW_STEP ∨
  (idx : ℤ) / WINDOW_WIDTH < WINDOW_STEP ∨
  (idx : ℤ) % WINDOW_WIDTH ≥ WINDOW_WIDTH - WINDOW_STEP ∨
  (idx : ℤ) / WINDOW_WIDTH ≥ WINDOW_HEIGHT - WINDOW_STEP

instance (idx : ℕ) : Decidable (isBorderIdx idx) := by
  unfold isBorderIdx; infer_instance

/-- The per-pixel score of FocusPointWithScore::new (src/focus_system.rs,
lines 31-61): 0 on the border stripe, otherwise the window variance times
the center bias. The cartesian product iterates dx outermost, matching
itertools; slice indexing is modelled by getD with default 0. -/
def scoreAt (in_field : List ℕ) (idx : ℕ) : ℚ :=
  let x : ℤ := (idx : ℤ) % WINDOW_WIDTH
  let y : ℤ := (idx : ℤ) / WINDOW_WIDTH
  if x < WINDOW_STEP ∨ y < WINDOW_STEP ∨
      x ≥ WINDOW_WIDTH - WINDOW_STEP ∨ y ≥ WINDOW_HEIGHT - WINDOW_STEP then 0
  else
    let samples : List ℚ := windowRange.flatMap (fun dx => windowRange.map (fun dy =>
      ((in_field.getD ((x + dx).toNat + ((y + dy) * WINDOW_WIDTH).toNat) 0 : ℕ) : ℚ)))
    let sums := samples.foldl (fun acc v => (acc.1 + v, acc.2 + v * v)) ((0 : ℚ), (0 : ℚ))
    let mean := sums.1 / SAMPLE_SIZE
    let variance := sums.2 / SAMPLE_SIZE - mean * mean
    let dx : ℚ := ((x - WINDOW_WIDTH / 2 : ℤ) : ℚ)
    let dy : ℚ := ((y - WINDOW_HEIGHT / 2 : ℤ) : ℚ)
    let center_bias := 1 - (1/2) * (dx * dx + dy * dy) / MAX_DIST_SQ
    variance * center_bias

/-- One comparison of the arg-max reduction of the scorer: max_by with
total_cmp over (index, score) pairs keeps the later element on ties, as
the Rust iterator max_by does. -/
def maxByGoStep (acc : Option (ℕ × ℚ)) (p : ℕ × ℚ) : Option (ℕ × ℚ) :=
  match acc with
  | none => some p
  | some q => if q.2 > p.2 then some q else some p

/-- The descent relation of the arg-max fold: the list shrinks. -/
def maxByGoRel (a b : Option (ℕ × ℚ) × List (ℕ × ℚ)) : Prop :=
  a.2.length < b.2.length

/-- Well-foundedness of the descent relation. The proof is wrapped in
Classical.choice so that kernel reduction of the fold below stops here
instead of unfolding the accessibility tree. -/
theorem maxByGoRel_wf : WellFounded maxByGoRel :=
  Classical.choice
    ⟨InvImage.wf (fun p : Option (ℕ × ℚ) × List (ℕ × ℚ) => p.2.length)
      (Nat.lt_wfRel.wf)⟩

/-- The fold of the arg-max reduction over the scored list, by
well-founded recursion on the length of the list. -/
def maxByGo (acc : Option (ℕ × ℚ)) (l : List (ℕ × ℚ)) : Option (ℕ × ℚ) :=
  @WellFounded.fix (Option (ℕ × ℚ) × List (ℕ × ℚ))
    (fun _ => Option (ℕ × ℚ)) maxByGoRel maxByGoRel_wf
    (fun p rec =>
      match p, rec with
      | (acc, []), _ => acc
      | (acc, q :: rest), rec =>
          rec (maxByGoStep acc q, rest) (Nat.lt_succ_self rest.length))
    (acc, l)

/-- The fold on the empty list returns the accumulator. -/
theorem maxByGo_nil (acc : Option (ℕ × ℚ)) : maxByGo acc [] = acc := by
  rw [maxByGo, WellFounded.fix_eq]

/-- The fold steps through the head of the list. -/
theorem maxByGo_cons (acc : Option (ℕ × ℚ)) (q : ℕ × ℚ)
    (rest : List (ℕ × ℚ)) :
    maxByGo acc (q :: rest) = maxByGo (maxByGoStep acc q) rest := by
  rw [maxByGo, WellFounded.fix_eq]
  rfl

/-- The arg-max reduction of the scorer over the whole scored list. -/
def maxByLast (l : List (ℕ × ℚ)) : Option (ℕ × ℚ) :=
  maxByGo none l

/-- The enumerated score list of FocusPointWithScore::new. -/
def scoredList (in_field : List ℕ) : List (ℕ × ℚ) :=
  (List.range (WINDOW_WIDTH * WINDOW_HEIGHT).toNat).map
    (fun (i : ℕ) => (i, scoreAt in_field i))

/-- The (best_index, score) pair produced by the arg-max reduction of
FocusPointWithScore::new; the unwrap of the nonempty reduction is
modelled with getD. -/
def bestPair (in_field : List ℕ) : ℕ × ℚ :=
  (maxByLast (scoredList in_field)).getD (0, 0)

/-- A point to focus on with an evaluation
(src/focus_system.rs, FocusPointWithScore). -/
structure FocusPointWithScore where
  x_pos : ℚ
  y_pos : ℚ
  score : ℚ
deriving DecidableEq

/-- Gets a focus point including score from the iteration field
(src/focus_system.rs, FocusPointWithScore::new). -/
def FocusPointWithScore.new (in_field : List ℕ) : FocusPointWithScore :=
  let best := bestPair in_field
  { x_pos := ((((best.1 : ℤ)) % WINDOW_WIDTH - WINDOW_WIDTH / 2 : ℤ) : ℚ)
    y_pos := ((((best.1 : ℤ)) / WINDOW_WIDTH - WINDOW_HEIGHT / 2 : ℤ) : ℚ)
    score := best.2 }

/-- Converts the focus into a target position in the complex plane
(src/focus_system.rs,
FocusPointWithScore::get_absolute_focus_in_complex_number_pane). -/
def FocusPointWithScore.get_absolute_focus_in_complex_number_pane
    (f : FocusPointWithScore) (center : ComplexNumber) (radius : ℚ) :
    ComplexNumber :=
  let step := radius / ((WINDOW_HEIGHT : ℚ) * (1/2))
  ⟨center.real + f.x_pos * step, center.imag + f.y_pos * step⟩

/-- The arg-max fold starting from a some accumulator yields an element of
the list or the accumulator itself. -/
theorem maxByGo_some_mem (l : List (ℕ × ℚ)) :
    ∀ q : ℕ × ℚ, ∃ r, maxByGo (some q) l = some r ∧ (r = q ∨ r ∈ l) := by
  induction l with
  | nil => intro q; exact ⟨q, maxByGo_nil (some q), Or.inl rfl⟩
  | cons p l ih =>
      intro q
      by_cases h : q.2 > p.2
      · obtain ⟨r, hr, hmem⟩ := ih q
        refine ⟨r, by rw [maxByGo_cons]; simpa [maxByGoStep, h] using hr, ?_⟩
        rcases hmem with h1 | h1
        · exact Or.inl h1
        · exact Or.inr (List.mem_cons_of_mem p h1)
      · obtain ⟨r, hr, hmem⟩ := ih p
        refine ⟨r, by rw [maxByGo_cons]; simpa [maxByGoStep, h] using hr, ?_⟩
        rcases hmem with h1 | h1
        · exact Or.inr (h1 ▸ List.mem_cons_self p l)
        · exact Or.inr (List.mem_cons_of_mem p h1)

/-- On a nonempty list the arg-max reduction returns an element of the
list. -/
theorem maxByLast_mem_of_ne_nil (l : List (ℕ × ℚ)) (h : l ≠ []) :
    ∃ r, maxByLast l = some r ∧ r ∈ l := by
  match l with
  | [] => exact absurd rfl h
  | p :: l =>
      obtain ⟨r, hr, hmem⟩ := maxByGo_some_mem l p
      refine ⟨r, ?_, ?_⟩
      · rw [maxByLast, maxByGo_cons]
        simpa [maxByGoStep] using hr
      · rcases hmem with h1 | h1
        · exact h1 ▸ List.mem_cons_self p l
        · exact List.mem_cons_of_mem p h1

/-- The arg-max fold splits over list concatenation. -/
theorem maxByGo_append (l1 l2 : List (ℕ × ℚ)) :
    ∀ acc, maxByGo acc (l1 ++ l2) = maxByGo (maxByGo acc l1) l2 := by
  induction l1 with
  | nil => intro acc; rw [List.nil_append, maxByGo_nil]
  | cons p rest ih =>
      intro acc
      rw [List.cons_append, maxByGo_cons, maxByGo_cons, ih]

/-- When every scored entry carries the same value, the arg-max reduction
keeps the last index, exactly as max_by does on ties. -/
theorem maxByLast_range_const (n : ℕ) (f : ℕ → ℚ) (c : ℚ) (hn : 0 < n)
    (hf : ∀ i < n, f i = c) :
    maxByLast ((List.range n).map (fun i => (i, f i))) = some (n - 1, c) := by
  induction n with
  | zero => omega
  | succ m ih =>
      rcases Nat.eq_zero_or_pos m with hm | hm
      · subst hm
        rw [List.range_succ, List.range_zero, List.nil_append, List.map_cons,
          List.map_nil, maxByLast, maxByGo_cons, maxByGo_nil]
        simp [maxByGoStep, hf 0 (by omega)]
      · have hprev : maxByGo none ((List.range m).map (fun i => (i, f i))) =
            some (m - 1, c) := ih hm (fun i hi => hf i (by omega))
        rw [List.range_succ, List.map_append, List.map_cons, List.map_nil,
          maxByLast, maxByGo_append, hprev, maxByGo_cons, maxByGo_nil]
        have h2 : f m = c := hf m (by omega)
        simp [maxByGoStep, h2]

/-- The sum/sum-of-squares fold over a list of identical values. -/
theorem foldl_sum_sq_const (l : List ℚ) (c : ℚ) (h : ∀ v ∈ l, v = c) :
    ∀ acc : ℚ × ℚ, l.foldl (fun acc v => (acc.1 + v, acc.2 + v * v)) acc =
      (acc.1 + l.length * c, acc.2 + l.length * (c * c)) := by
  induction l with
  | nil => intro acc; simp
  | cons v l ih =>
      intro acc
      have hv : v = c := h v (List.mem_cons_self v l)
      have hrest : ∀ w ∈ l, w = c := fun w hw => h w (List.mem_cons_of_mem v hw)
      rw [List.foldl_cons, ih hrest]
      subst hv
      simp only [List.length_cons, Prod.mk.injEq]
      constructor <;> (push_cast; ring)

/-- The length of a flatMap of maps is the product of the lengths. -/
theorem length_flatMap_map (l1 l2 : List ℤ) (g : ℤ → ℤ → ℚ) :
    (l1.flatMap (fun dx => l2.map (g dx))).length = l1.length * l2.length := by
  induction l1 with
  | nil => simp
  | cons a l ih =>
      rw [List.flatMap_cons, List.length_append, List.length_map, ih,
        List.length_cons, Nat.succ_mul]
      omega

/-- Every window sample drawn from a constant field equals the constant. -/
theorem sample_of_replicate (N v : ℕ) (x y dx dy : ℤ)
    (hx : 0 ≤ x + dx) (hxw : x + dx < WINDOW_WIDTH)
    (hy : 0 ≤ y + dy) (hyw : y + dy < WINDOW_HEIGHT)
    (hN : N = (WINDOW_WIDTH * WINDOW_HEIGHT).toNat) :
    (List.replicate N v).getD ((x + dx).toNat + ((y + dy) * WINDOW_WIDTH).toNat) 0 = v := by
  have hlt : (x + dx).toNat + ((y + dy) * WINDOW_WIDTH).toNat < N := by
    subst hN
    unfold WINDOW_WIDTH WINDOW_HEIGHT at *
    omega
  rw [List.getD_eq_getElem?_getD, List.getElem?_replicate]
  simp [hlt]

/-- On a constant field every pixel scores exactly 0: border pixels by the
stripe exclusion, interior pixels because the window variance vanishes. -/
theorem scoreAt_replicate (v : ℕ) (idx : ℕ) :
    scoreAt (List.replicate (WINDOW_WIDTH * WINDOW_HEIGHT).toNat v) idx = 0 := by
  unfold scoreAt
  set x : ℤ := (idx : ℤ) % WINDOW_WIDTH with hxdef
  set y : ℤ := (idx : ℤ) / WINDOW_WIDTH with hydef
  by_cases hb : x < WINDOW_STEP ∨ y < WINDOW_STEP ∨
      x ≥ WINDOW_WIDTH - WINDOW_STEP ∨ y ≥ WINDOW_HEIGHT - WINDOW_STEP
  · rw [if_pos hb]
  · rw [if_neg hb]
    push_neg at hb
    obtain ⟨hb1, hb2, hb3, hb4⟩ := hb
    have hsample : ∀ s ∈ (windowRange.flatMap (fun dx => windowRange.map (fun dy =>
        (((List.replicate (WINDOW_WIDTH * WINDOW_HEIGHT).toNat v).getD
          ((x + dx).toNat + ((y + dy) * WINDOW_WIDTH).toNat) 0 : ℕ) : ℚ)))),
        s = (v : ℚ) := by
      intro s hs
      rw [List.mem_flatMap] at hs
      obtain ⟨dx, hdx, hs⟩ := hs
      rw [List.mem_map] at hs
      obtain ⟨dy, hdy, hs⟩ := hs
      have hdxb : -WINDOW_STEP ≤ dx ∧ dx ≤ WINDOW_STEP := by
        rw [windowRange, List.mem_map] at hdx
        obtain ⟨i, hi, hdx⟩ := hdx
        rw [List.mem_range] at hi
        unfold WINDOW_STEP at *
        omega
      have hdyb : -WINDOW_STEP ≤ dy ∧ dy ≤ WINDOW_STEP := by
        rw [windowRange, List.mem_map] at hdy
        obtain ⟨i, hi, hdy⟩ := hdy
        rw [List.mem_range] at hi
        unfold WINDOW_STEP at *
        omega
      have hx0 : 0 ≤ x := Int.emod_nonneg _ (by unfold WINDOW_WIDTH; omega)
      have hy0 : 0 ≤ y := Int.ediv_nonneg (by omega) (by unfold WINDOW_WIDTH; omega)
      rw [← hs, sample_of_replicate]
      · unfold WINDOW_STEP at *; omega
      · unfold WINDOW_STEP WINDOW_WIDTH at *; omega
      · unfold WINDOW_STEP at *; omega
      · unfold WINDOW_STEP WINDOW_HEIGHT at *; omega
      · rfl
    have hlen : (windowRange.flatMap (fun dx => windowRange.map (fun dy =>
        (((List.replicate (WINDOW_WIDTH * WINDOW_HEIGHT).toNat v).getD
          ((x + dx).toNat + ((y + dy) * WINDOW_WIDTH).toNat) 0 : ℕ) : ℚ)))).length
        = 121 := by
      rw [length_flatMap_map]
      decide
    have hfold := foldl_sum_sq_const _ (v : ℚ) hsample ((0 : ℚ), (0 : ℚ))
    rw [hlen] at hfold
    have hss : SAMPLE_SIZE = 121 := by decide
    simp only [hfold, hss]
    push_cast
    ring

/-- On a constant field the arg-max reduction returns the last linear
pixel index with score 0. -/
theorem bestPair_replicate (v : ℕ) :
    bestPair (List.replicate (WINDOW_WIDTH * WINDOW_HEIGHT).toNat v) =
      ((WINDOW_WIDTH * WINDOW_HEIGHT).toNat - 1, 0) := by
  unfold bestPair scoredList
  rw [maxByLast_range_const _ _ 0 (by decide)
    (fun i _ => scoreAt_replicate v i)]
  rfl

/-- C3 (amended): border pixels score exactly 0, and the selected pixel
lies outside the border stripe whenever the reported best score is
nonzero; when every score ties at 0 the arg-max reduction keeps the last
linear index, which is a border pixel. -/
theorem claim_C3_border_selection (in_field : List ℕ) :
    (∀ idx : ℕ, isBorderIdx idx → scoreAt in_field idx = 0) ∧
    (¬ isBorderIdx (bestPair in_field).1 ∨
      (FocusPointWithScore.new in_field).score = 0) := by
  have hborder : ∀ idx : ℕ, isBorderIdx idx → scoreAt in_field idx = 0 := by
    intro idx h
    unfold isBorderIdx at h
    unfold scoreAt
    exact if_pos h
  refine ⟨hborder, ?_⟩
  have hne : scoredList in_field ≠ [] := by
    intro heq
    have hlen := congrArg List.length heq
    rw [scoredList, List.length_map, List.length_range] at hlen
    exact absurd hlen (by decide)
  obtain ⟨r, hr, hmem⟩ := maxByLast_mem_of_ne_nil _ hne
  rw [scoredList, List.mem_map] at hmem
  obtain ⟨j, hj, hrj⟩ := hmem
  have hbp : bestPair in_field = r := by
    rw [bestPair, hr]
    rfl
  by_cases hb : isBorderIdx j
  · right
    rw [FocusPointWithScore.new]
    rw [hbp, ← hrj]
    exact hborder j hb
  · left
    rw [hbp, ← hrj]
    exact hb

/-- C3 witness: index 0 lies in the border stripe and scores 0 on the
empty field. -/
theorem claim_C3_border_selection_witness : scoreAt [] 0 = 0 :=
  (claim_C3_border_selection []).1 0 (by decide)

/-- C3 counterexample: on the constant field of value 50 every window has
zero variance, all scores tie at 0, and the arg-max reduction selects the
last linear index 1280*720-1 - the bottom-right corner, which lies inside
the border stripe (its pixel offsets from the center are 639 and 359),
refuting the claim that the selected pixel is never within WINDOW_STEP of
a border. -/
theorem claim_C3_flat_field_selects_border :
    bestPair (List.replicate (WINDOW_WIDTH * WINDOW_HEIGHT).toNat 50) =
      ((WINDOW_WIDTH * WINDOW_HEIGHT).toNat - 1, 0) ∧
    isBorderIdx ((WINDOW_WIDTH * WINDOW_HEIGHT).toNat - 1) ∧
    (FocusPointWithScore.new
      (List.replicate (WINDOW_WIDTH * WINDOW_HEIGHT).toNat 50)).x_pos = 639 ∧
    (FocusPointWithScore.new
      (List.replicate (WINDOW_WIDTH * WINDOW_HEIGHT).toNat 50)).y_pos = 359 := by
  refine ⟨bestPair_replicate 50, by decide, ?_, ?_⟩
  · rw [FocusPointWithScore.new, bestPair_replicate 50]
    decide
  · rw [FocusPointWithScore.new, bestPair_replicate 50]
    decide

/-- C4: on a field whose entries are all equal the focus scorer reports a
best score of exactly 0. -/
theorem claim_C4_flat_field_score (v : ℕ) :
    (FocusPointWithScore.new
      (List.replicate (WINDOW_WIDTH * WINDOW_HEIGHT).toNat v)).score = 0 := by
  rw [FocusPointWithScore.new, bestPair_replicate v]

/-- The score a start candidate must exceed (src/main.rs, START_SCORE). -/
def START_SCORE : ℚ := 600

/-- The radius at which zooming starts and to which the system zooms out
(src/main.rs, BASE_RADIUS). -/
def BASE_RADIUS : ℚ := 1/10

/-- The loop of find_interesting_start (src/main.rs, lines 61-70), made
total with an explicit attempt budget: draws is the stream of sampled
random points, k the index of the next draw. Each attempt scores the
field computed at the drawn point with BASE_RADIUS; the variant of
focus_system::get_focus_point that main.rs imports is not among the
source files, and its result shape (x_pos, y_pos, score) matches
FocusPointWithScore::new, which models it here. The source's loop has no
budget; running out of the budget here (returning none) corresponds to
the source looping further. -/
def find_interesting_start_go (draws : ℕ → ComplexNumber) :
    ℕ → ℕ → Option ComplexNumber
  | 0, _ => none
  | fuel + 1, k =>
      let test := draws k
      if (FocusPointWithScore.new
          (get_iteration_field test BASE_RADIUS)).score > START_SCORE then
        some test
      else find_interesting_start_go draws fuel (k + 1)

/-- A coordinate far outside the set: every pixel of its field diverges
after exactly one iteration, so the whole field is constant 1. -/
theorem get_iteration_field_far :
    get_iteration_field ⟨1000000, 0⟩ BASE_RADIUS =
      List.replicate (WINDOW_WIDTH * WINDOW_HEIGHT).toNat 1 := by
  rw [get_iteration_field]
  rw [List.eq_replicate_iff]
  constructor
  · rw [List.length_map, List.length_range]
  · intro b hb
    rw [List.mem_map] at hb
    obtain ⟨i, hi, hb⟩ := hb
    rw [List.mem_range] at hi
    rw [← hb]
    apply iteration_of_large
    have hx : -640 ≤ (i : ℤ) % WINDOW_WIDTH - WINDOW_WIDTH / 2 ∧
        (i : ℤ) % WINDOW_WIDTH - WINDOW_WIDTH / 2 ≤ 639 := by
      unfold WINDOW_WIDTH
      omega
    set xp : ℤ := (i : ℤ) % WINDOW_WIDTH - WINDOW_WIDTH / 2 with hxp
    have hxq : (-640 : ℚ) ≤ (xp : ℚ) ∧ (xp : ℚ) ≤ 639 :=
      ⟨by exact_mod_cast hx.1, by exact_mod_cast hx.2⟩
    have hstep : BASE_RADIUS / ((WINDOW_HEIGHT : ℚ) * (1/2)) = 1/3600 := by
      unfold BASE_RADIUS WINDOW_HEIGHT
      norm_num
    rw [hstep]
    have hre : (999999 : ℚ) ≤ (xp : ℚ) * (1/3600) + 1000000 := by
      nlinarith [hxq.1]
    have him : (0 : ℚ) ≤ (((i : ℤ) / WINDOW_WIDTH - WINDOW_HEIGHT / 2 : ℤ) : ℚ) *
        (1/3600) * ((((i : ℤ) / WINDOW_WIDTH - WINDOW_HEIGHT / 2 : ℤ) : ℚ) * (1/3600)) := by
      exact mul_self_nonneg _
    simp only [add_zero]
    nlinarith [hre, him]

/-- The score of the far-away candidate point is exactly 0 (its field is
constant, so every window has zero variance). -/
theorem far_point_score_zero :
    (FocusPointWithScore.new
      (get_iteration_field ⟨1000000, 0⟩ BASE_RADIUS)).score = 0 := by
  rw [get_iteration_field_far, FocusPointWithScore.new, bestPair_replicate 1]

/-- For the draw stream that always samples the point 1000000 + 0i
(whose field scores 0), the synchronous search of find_interesting_start
never accepts, whatever the attempt budget. -/
theorem find_interesting_start_stuck :
    ∀ fuel k : ℕ,
      find_interesting_start_go (fun _ => ⟨1000000, 0⟩) fuel k = none := by
  intro fuel
  induction fuel with
  | zero => intro k; rfl
  | succ n ih =>
      intro k
      rw [find_interesting_start_go]
      rw [if_neg]
      · exact ih (k + 1)
      · rw [far_point_score_zero]
        norm_num [START_SCORE]

/-- C5 counterexample: at the concrete draw stream that always samples
the point 1000000 + 0i (whose field scores 0), the synchronous search has
not returned after 30 attempts - the upper end of the attempt budget the
claim asserts - and no fallback point is produced, refuting the claim
that every draw sequence yields a destination within a bounded number of
attempts. -/
theorem claim_C5_no_return_within_budget :
    find_interesting_start_go (fun _ => ⟨1000000, 0⟩) 30 0 = none :=
  find_interesting_start_stuck 30 0

/-- C5 (amended): the synchronous search accepts the first sampled point
whose score exceeds START_SCORE; it returns within n attempts exactly
when one of the first n draws scores above the threshold - there is no
attempt budget and no hardcoded fallback point in find_interesting_start
(the bounded, fallback-equipped search exists only in the amortized
StartPointForZoom). -/
theorem claim_C5_search_terminates_iff (draws : ℕ → ComplexNumber) (n : ℕ) :
    (find_interesting_start_go draws n 0).isSome ↔
      ∃ k < n, (FocusPointWithScore.new
        (get_iteration_field (draws k) BASE_RADIUS)).score > START_SCORE := by
  have hgen : ∀ fuel k : ℕ, (find_interesting_start_go draws fuel k).isSome ↔
      ∃ j < fuel, (FocusPointWithScore.new
        (get_iteration_field (draws (k + j)) BASE_RADIUS)).score > START_SCORE := by
    intro fuel
    induction fuel with
    | zero => intro k; simp [find_interesting_start_go]
    | succ m ih =>
        intro k
        rw [find_interesting_start_go]
        by_cases h : (FocusPointWithScore.new
          (get_iteration_field (draws k) BASE_RADIUS)).score > START_SCORE
        · rw [if_pos h]
          simp only [Option.isSome_some, true_iff]
          exact ⟨0, by omega, by simpa using h⟩
        · rw [if_neg h]
          rw [ih (k + 1)]
          constructor
          · rintro ⟨j, hj, hsc⟩
            exact ⟨j + 1, by omega, by
              have : k + 1 + j = k + (j + 1) := by omega
              rwa [this] at hsc⟩
          · rintro ⟨j, hj, hsc⟩
            match j with
            | 0 => exact absurd (by simpa using hsc) h
            | j + 1 =>
                exact ⟨j, by omega, by
                  have : k + (j + 1) = k + 1 + j := by omega
                  rwa [this] at hsc⟩
  have := hgen n 0
  simpa using this

/-- Modelled from the spec: the constant START_FOCUS_RADIUS that
focus_system.rs imports from the crate root is not declared in the main.rs
variant among the source files; the spec calls it a fixed small evaluation
radius, and the crate root's BASE_RADIUS suggests the value 0.1. No claim
below depends on its value. -/
def START_FOCUS_RADIUS : ℚ := 1/10

/-- The score the amortized search minimally wants
(src/focus_system.rs, ITER_MINIMUM_SCORE). -/
def ITER_MINIMUM_SCORE : ℚ := 50

/-- The amount of random samples drawn for finding a focus point
(src/focus_system.rs, NUM_OF_SAMPLES_FOR_FOCUS). -/
def NUM_OF_SAMPLES_FOR_FOCUS : ℕ := 10

/-- The amortized search state (src/focus_system.rs, StartPointForZoom):
a candidate starting point, its best score, the remaining attempt counter
(u8) and the optional precomputed field with its sample point. -/
structure StartPointForZoom where
  starting_point : ComplexNumber
  score : ℚ
  remaining_iteration : ℕ
  precomputed_field : Option (List ℕ × ComplexNumber)

/-- One improve step (src/focus_system.rs, StartPointForZoom::try_improve):
a no-op when the counter is exhausted; otherwise either scores the pending
field (adopting the candidate when its score is strictly better, clearing
the pending slot and decrementing the counter) or computes and stashes a
field at the freshly drawn random point. The random draw of the sampling
phase is the explicit argument. -/
def StartPointForZoom.try_improve (s : StartPointForZoom) (draw : ComplexNumber) :
    StartPointForZoom :=
  if s.remaining_iteration = 0 then s
  else
    match s.precomputed_field with
    | some (num_array, test) =>
        let s1 : StartPointForZoom :=
          { s with remaining_iteration := s.remaining_iteration - 1 }
        let focus := FocusPointWithScore.new num_array
        let s2 : StartPointForZoom :=
          if focus.score > s1.score then
            { s1 with
              score := focus.score
              starting_point :=
                focus.get_absolute_focus_in_complex_number_pane test
                  START_FOCUS_RADIUS }
          else s1
        { s2 with precomputed_field := none }
    | none =>
        { s with precomputed_field :=
            (some (get_iteration_field draw START_FOCUS_RADIUS, draw)) }

/-- The reset of the amortized search (src/focus_system.rs,
StartPointForZoom::reset_iteration): reinitializes the counter and the
minimum score and adopts the freshly drawn random fallback point; the
random draw is the explicit argument. -/
def StartPointForZoom.reset_iteration (s : StartPointForZoom)
    (draw : ComplexNumber) : StartPointForZoom :=
  { s with
    remaining_iteration := NUM_OF_SAMPLES_FOR_FOCUS
    score := ITER_MINIMUM_SCORE
    starting_point := draw
    precomputed_field := none }

/-- C7: once the remaining-attempts counter is exhausted, an improve step
returns the state unchanged: candidate point, score, counter and pending
slot are all left as they were. -/
theorem claim_C7_exhausted_noop (s : StartPointForZoom) (draw : ComplexNumber)
    (h : s.remaining_iteration = 0) : s.try_improve draw = s := by
  rw [StartPointForZoom.try_improve, if_pos h]

/-- C7 witness: the improve step applied to a concrete exhausted state is
the identity. -/
theorem claim_C7_exhausted_noop_witness :
    StartPointForZoom.try_improve ⟨⟨0, 0⟩, 50, 0, none⟩ ⟨1, 1⟩ =
      ⟨⟨0, 0⟩, 50, 0, none⟩ :=
  claim_C7_exhausted_noop ⟨⟨0, 0⟩, 50, 0, none⟩ ⟨1, 1⟩ rfl

/-- An improve step never decreases the recorded best score. -/
theorem try_improve_score_mono (s : StartPointForZoom) (draw : ComplexNumber) :
    s.score ≤ (s.try_improve draw).score := by
  rcases s with ⟨sp, sc, ri, pf⟩
  rw [StartPointForZoom.try_improve]
  by_cases h0 : ri = 0
  · rw [if_pos h0]
  · rw [if_neg h0]
    match pf with
    | none => exact le_rfl
    | some (num_array, test) =>
        dsimp only
        by_cases hsc : (FocusPointWithScore.new num_array).score > sc
        · rw [if_pos hsc]
          exact le_of_lt hsc
        · rw [if_neg hsc]

/-- C10: after a reset the best score is exactly ITER_MINIMUM_SCORE; over
any sequence of improve steps the best score never decreases; and one
improve step either leaves the candidate starting point unchanged or
strictly raises the best score. -/
theorem claim_C10_search_invariants :
    (∀ (s : StartPointForZoom) (draw : ComplexNumber),
      (s.reset_iteration draw).score = ITER_MINIMUM_SCORE) ∧
    (∀ (s : StartPointForZoom) (draws : List ComplexNumber),
      s.score ≤ (draws.foldl StartPointForZoom.try_improve s).score) ∧
    (∀ (s : StartPointForZoom) (draw : ComplexNumber),
      (s.try_improve draw).starting_point = s.starting_point ∨
        s.score < (s.try_improve draw).score) := by
  refine ⟨fun s draw => rfl, ?_, ?_⟩
  · intro s draws
    induction draws generalizing s with
    | nil => simp
    | cons d rest ih =>
        rw [List.foldl_cons]
        exact le_trans (try_improve_score_mono s d) (ih (s.try_improve d))
  · intro s draw
    rcases s with ⟨sp, sc, ri, pf⟩
    rw [StartPointForZoom.try_improve]
    by_cases h0 : ri = 0
    · rw [if_pos h0]
      exact Or.inl rfl
    · rw [if_neg h0]
      match pf with
      | none => exact Or.inl rfl
      | some (num_array, test) =>
          dsimp only
          by_cases hsc : (FocusPointWithScore.new num_array).score > sc
          · rw [if_pos hsc]
            exact Or.inr hsc
          · rw [if_neg hsc]
            exact Or.inl rfl

/-- Modelled from the spec: the SpringDamper scalar update smooth_damp_to,
whose Rust definition is not among the source files (main.rs calls it on
ComplexNumber per axis). Following the spec: omega = 2 / smooth_time with
smooth_time clamped to the floor 1e-4; the critically damped solution is
integrated analytically, position = target + (change + temp) * exp and
velocity = (velocity - omega * temp) * exp with temp =
(velocity + omega * change) * delta_time; crossing past the target snaps
to the target and zeroes the velocity. The transcendental decay factor
exp(-omega * delta_time) is passed as the explicit parameter e. -/
def smooth_damp_scalar (current target velocity smooth_time delta_time e : ℚ) :
    ℚ × ℚ :=
  let st := max smooth_time (1/10000)
  let omega := 2 / st
  let change := current - target
  let temp := (velocity + omega * change) * delta_time
  let new_velocity := (velocity - omega * temp) * e
  let new_position := target + (change + temp) * e
  if (target - current) * (new_position - target) > 0 then (target, 0)
  else (new_position, new_velocity)

/-- Repeated application of the scalar spring update with a fixed target
and fixed parameters. -/
def smooth_damp_iterate (target smooth_time delta_time e : ℚ) :
    ℚ × ℚ → ℕ → ℚ × ℚ
  | p, 0 => p
  | p, n + 1 =>
      smooth_damp_iterate target smooth_time delta_time e
        (smooth_damp_scalar p.1 target p.2 smooth_time delta_time e) n

/-- A single spring update at the target with zero velocity returns the
target with zero velocity, for every choice of parameters. -/
theorem smooth_damp_scalar_fixed (target smooth_time delta_time e : ℚ) :
    smooth_damp_scalar target target 0 smooth_time delta_time e =
      (target, 0) := by
  unfold smooth_damp_scalar
  have hcond : ¬ ((target - target) *
      (target + (target - target + (0 + 2 / max smooth_time (1/10000) *
        (target - target)) * delta_time) * e - target) > 0) := by
    simp
  rw [if_neg hcond]
  have h1 : target + (target - target + (0 + 2 / max smooth_time (1/10000) *
      (target - target)) * delta_time) * e = target := by ring
  have h2 : (0 - 2 / max smooth_time (1/10000) *
      ((0 + 2 / max smooth_time (1/10000) * (target - target)) * delta_time)) * e
      = 0 := by ring
  rw [h1, h2]

/-- C8: the spring damper is idempotent at the target - for every target,
smoothing time, frame duration and decay factor, any number of repeated
updates starting from current = target with velocity = 0 leaves both the
position and the velocity unchanged. -/
theorem claim_C8_spring_idempotent (target smooth_time delta_time e : ℚ)
    (n : ℕ) :
    smooth_damp_iterate target smooth_time delta_time e (target, 0) n =
      (target, 0) := by
  induction n with
  | zero => rfl
  | succ m ih =>
      rw [smooth_damp_iterate, smooth_damp_scalar_fixed]
      exact ih

/-- The score below which the current zoom is abandoned
(src/main.rs, MIN_SCORE). -/
def MIN_SCORE : ℚ := 150

/-- Smooth time for panning between positions
(src/main.rs, PAN_SMOOTH_TIME). -/
def PAN_SMOOTH_TIME : ℚ := 1/2

/-- Threshold for considering the pan complete
(src/main.rs, PAN_COMPLETE_THRESHOLD). -/
def PAN_COMPLETE_THRESHOLD : ℚ := 1/1000

/-- The state of the zoom system (src/main.rs, ZoomState). -/
inductive ZoomState where
  | zoomingIn : ZoomState
  | zoomingOut (next_center : ComplexNumber) : ZoomState
  | panning (next_center : ComplexNumber) (velocity : ℚ × ℚ) : ZoomState

/-- The mutable per-frame data of the main loop (src/main.rs, main):
viewport center, radius, the focus spring velocity and the zoom state. -/
structure FrameState where
  center : ComplexNumber
  radius : ℚ
  velocity : ℚ × ℚ
  zoom_state : ZoomState

/-- One iteration of the frame loop (src/main.rs, lines 89-157): the
radius is scaled by the state-dependent factor, the field and its focus
are computed, and the state machine advances. Three collaborators are
passed explicitly because they are outside the rational embedding or
outside the source files: zf and zfOut stand for the factors
radius_scaling.powf(delta_time) and radius_scaling.powf(-delta_time *
ZOOM_OUT_SPEED) computed with the transcendental powf; dampF models the
absent focus smooth_damp (it receives the focus offsets, the spring
velocity and delta_time and returns damped offsets and the new velocity,
leaving the score untouched as a position-only smoothing); nextDest is
the value returned by the find_interesting_start loop, whose own
behaviour is settled separately. -/
def frameStep (s : FrameState) (delta_time zf zfOut e : ℚ)
    (dampF : (ℚ × ℚ) → (ℚ × ℚ) → ℚ → (ℚ × ℚ) × (ℚ × ℚ))
    (nextDest : ComplexNumber) : FrameState :=
  let radius :=
    match s.zoom_state with
    | ZoomState.zoomingIn => s.radius * zf
    | ZoomState.zoomingOut _ => s.radius * zfOut
    | ZoomState.panning _ _ => s.radius
  let num_array := get_iteration_field s.center radius
  let focus := FocusPointWithScore.new num_array
  match s.zoom_state with
  | ZoomState.zoomingIn =>
      let damped := dampF (focus.x_pos, focus.y_pos) s.velocity delta_time
      let step := radius / ((WINDOW_HEIGHT : ℚ) * (1/2))
      let center : ComplexNumber :=
        ⟨s.center.real + damped.1.1 * step, s.center.imag + damped.1.2 * step⟩
      if radius < 1/10^13 ∨ focus.score < MIN_SCORE then
        ⟨center, radius, (0, 0), ZoomState.zoomingOut nextDest⟩
      else
        ⟨center, radius, damped.2, ZoomState.zoomingIn⟩
  | ZoomState.zoomingOut next_center =>
      if radius ≥ BASE_RADIUS then
        ⟨s.center, BASE_RADIUS, s.velocity, ZoomState.panning next_center (0, 0)⟩
      else
        ⟨s.center, radius, s.velocity, ZoomState.zoomingOut next_center⟩
  | ZoomState.panning next_center pan_velocity =>
      let dr := smooth_damp_scalar s.center.real next_center.real
        pan_velocity.1 PAN_SMOOTH_TIME delta_time e
      let di := smooth_damp_scalar s.center.imag next_center.imag
        pan_velocity.2 PAN_SMOOTH_TIME delta_time e
      let center : ComplexNumber := ⟨dr.1, di.1⟩
      let dist_sq := (center.real - next_center.real)^2 +
        (center.imag - next_center.imag)^2
      if dist_sq < PAN_COMPLETE_THRESHOLD * PAN_COMPLETE_THRESHOLD then
        ⟨next_center, radius, s.velocity, ZoomState.zoomingIn⟩
      else
        ⟨center, radius, s.velocity, ZoomState.panning next_center (dr.2, di.2)⟩

/-- C6: in the zooming-in state, whenever the frame's updated radius falls
below 1e-13 the step zeroes the spring velocity, stores the destination
delivered by the triggered search as the next target, and transitions to
ZoomingOut. -/
theorem claim_C6_min_radius_transition (s : FrameState)
    (delta_time zf zfOut e : ℚ)
    (dampF : (ℚ × ℚ) → (ℚ × ℚ) → ℚ → (ℚ × ℚ) × (ℚ × ℚ))
    (nextDest : ComplexNumber)
    (hz : s.zoom_state = ZoomState.zoomingIn)
    (hr : s.radius * zf < 1/10^13) :
    (frameStep s delta_time zf zfOut e dampF nextDest).zoom_state =
      ZoomState.zoomingOut nextDest ∧
    (frameStep s delta_time zf zfOut e dampF nextDest).velocity = (0, 0) := by
  rcases s with ⟨c, r, v, z⟩
  simp only at hz hr
  subst hz
  simp only [frameStep]
  rw [if_pos (Or.inl hr)]
  exact ⟨rfl, rfl⟩

/-- C6 witness: a concrete zooming-in state with radius 1e-14 transitions
to ZoomingOut with zero velocity. -/
theorem claim_C6_min_radius_transition_witness :
    (frameStep ⟨⟨0, 0⟩, 1/10^14, (5, 5), ZoomState.zoomingIn⟩ 1 1 1 1
      (fun off vel _ => (off, vel)) ⟨-7/5, 0⟩).zoom_state =
      ZoomState.zoomingOut ⟨-7/5, 0⟩ ∧
    (frameStep ⟨⟨0, 0⟩, 1/10^14, (5, 5), ZoomState.zoomingIn⟩ 1 1 1 1
      (fun off vel _ => (off, vel)) ⟨-7/5, 0⟩).velocity = (0, 0) :=
  claim_C6_min_radius_transition _ 1 1 1 1 _ _ rfl (by norm_num)

/-- C9: in the zooming-in state the zoom is also abandoned when the
frame's focus score drops below MIN_SCORE while the radius is still at or
above the 1e-13 limit: the step zeroes the spring velocity, stores the
search's destination and transitions to ZoomingOut. -/
theorem claim_C9_low_score_abandon (s : FrameState)
    (delta_time zf zfOut e : ℚ)
    (dampF : (ℚ × ℚ) → (ℚ × ℚ) → ℚ → (ℚ × ℚ) × (ℚ × ℚ))
    (nextDest : ComplexNumber)
    (hz : s.zoom_state = ZoomState.zoomingIn)
    (hr : ¬ (s.radius * zf < 1/10^13))
    (hsc : (FocusPointWithScore.new
      (get_iteration_field s.center (s.radius * zf))).score < MIN_SCORE) :
    (frameStep s delta_time zf zfOut e dampF nextDest).zoom_state =
      ZoomState.zoomingOut nextDest ∧
    (frameStep s delta_time zf zfOut e dampF nextDest).velocity = (0, 0) := by
  rcases s with ⟨c, r, v, z⟩
  simp only at hz hr hsc
  subst hz
  simp only [frameStep]
  rw [if_pos (Or.inr hsc)]
  exact ⟨rfl, rfl⟩

/-- C9 witness: at the concrete center 1000000 + 0i with radius 0.1 the
field is flat, its focus score 0 is below MIN_SCORE, and the step
transitions to ZoomingOut with zero velocity although the radius is far
above 1e-13. -/
theorem claim_C9_low_score_abandon_witness :
    (frameStep ⟨⟨1000000, 0⟩, 1/10, (5, 5), ZoomState.zoomingIn⟩ 1 1 1 1
      (fun off vel _ => (off, vel)) ⟨-7/5, 0⟩).zoom_state =
      ZoomState.zoomingOut ⟨-7/5, 0⟩ ∧
    (frameStep ⟨⟨1000000, 0⟩, 1/10, (5, 5), ZoomState.zoomingIn⟩ 1 1 1 1
      (fun off vel _ => (off, vel)) ⟨-7/5, 0⟩).velocity = (0, 0) := by
  apply claim_C9_low_score_abandon _ 1 1 1 1 _ _ rfl
  · norm_num
  · show (FocusPointWithScore.new
      (get_iteration_field ⟨1000000, 0⟩ (1/10 * 1))).score < MIN_SCORE
    rw [show ((1:ℚ)/10 * 1) = BASE_RADIUS from by norm_num [BASE_RADIUS]]
    rw [far_point_score_zero]
    norm_num [MIN_SCORE]

end Mandelbrot
